import Mathlib

/-!
Shallow embedding of `src/memory.rs` of the miri interpreter: the
`Memory` / `Allocation` / `Pointer` model with relocation
(pointer-provenance) bookkeeping, together with proofs about it.

Modelling conventions:

* `usize` / `u64` values are `Nat`.  All the statements proved below carry
  in-bounds hypotheses matching their claims, so the arithmetic never
  leaves the range where `Nat` agrees with the machine integers; the one
  place where a integer cast truncates (`ptr_val.offset as u64` in
  `write_ptr`) is modelled with an explicit `% 2 ^ 64`.
* `Vec<u8>` is `List Nat`; every list the operations produce has entries
  `< 256`.
* `BTreeMap<usize, AllocId>` and `HashMap<u64, Allocation>` are entry
  lists: `insert` replaces the entry with an equal key, `get` finds the
  entry, and a `range(Included a, Excluded b)` query visits exactly the
  entries whose key lies in `[a, b)`, which is the map semantics the
  source relies on.
* `NativeEndian` is little-endian (the x86-64 hosts this crate builds
  on), and `mem::size_of::<usize>()` is 8.
* A Rust method taking `&mut self` becomes `Memory → ... × Memory`.  A
  failing call returns the unchanged input memory; this is faithful
  because in the source every check of an operation precedes every
  mutation performed by that operation.
-/

deriving instance DecidableEq for Except

namespace Miri

/-- Error kinds of `error.rs` raised by the memory subsystem
(`EvalError` in the source). -/
inductive EvalError where
  | DanglingPointerDeref
  | PointerOutOfBounds
  | ReadPointerAsBytes
  | ReadBytesAsPointer
  | InvalidBool
  deriving DecidableEq

/-- `pub struct AllocId(u64)`. -/
structure AllocId where
  id : Nat
  deriving DecidableEq

/-- `pub struct Allocation { bytes: Vec<u8>, relocations: BTreeMap<usize, AllocId> }`. -/
structure Allocation where
  bytes : List Nat
  relocations : List (Nat × AllocId)
  deriving DecidableEq

/-- `pub struct Pointer { alloc_id: AllocId, offset: usize }`. -/
structure Pointer where
  alloc_id : AllocId
  offset : Nat
  deriving DecidableEq

/-- `pub struct Memory { alloc_map: HashMap<u64, Allocation>, next_id: u64, pointer_size: usize }`. -/
structure Memory where
  alloc_map : List (Nat × Allocation)
  next_id : Nat
  pointer_size : Nat
  deriving DecidableEq

/-- `enum PrimVal` from `primval.rs` (only its shape matters here: it is
dispatched by `write_primval`).  Signed payloads are `Int`, unsigned are
`Nat`. -/
inductive PrimVal where
  | Bool (b : Bool)
  | I8 (n : Int)
  | I16 (n : Int)
  | I32 (n : Int)
  | I64 (n : Int)
  | U8 (n : Nat)
  | U16 (n : Nat)
  | U32 (n : Nat)
  | U64 (n : Nat)
  | IntegerPtr (n : Nat)
  | AbstractPtr (p : Pointer)
  deriving DecidableEq

/-- Little-endian encoding of `u` into `w` bytes: what
`byteorder::NativeEndian::write_uint(buf, u, w)` stores on the
little-endian hosts this crate targets. -/
def leBytes : Nat → Nat → List Nat
  | 0, _ => []
  | w + 1, u => u % 256 :: leBytes w (u / 256)

/-- Little-endian decoding of a byte list: what
`byteorder::NativeEndian::read_uint(buf, buf.len())` returns. -/
def leDecode : List Nat → Nat
  | [] => 0
  | b :: bs => b + 256 * leDecode bs

/-- Sign-extending decode of `bs.length` little-endian bytes: what
`byteorder::NativeEndian::read_int(buf, buf.len())` returns. -/
def leDecodeSigned (bs : List Nat) : Int :=
  if leDecode bs < 2 ^ (8 * bs.length - 1) then (leDecode bs : Int)
  else (leDecode bs : Int) - (2 : Int) ^ (8 * bs.length)

/-- `BTreeMap::get(&k)` on the relocation table. -/
def relocGet (rs : List (Nat × AllocId)) (k : Nat) : Option AllocId :=
  (rs.find? (fun q => q.1 == k)).map (fun q => q.2)

/-- `BTreeMap::insert(k, v)` on the relocation table (replaces the entry
with an equal key). -/
def relocInsert (rs : List (Nat × AllocId)) (k : Nat) (v : AllocId) :
    List (Nat × AllocId) :=
  (k, v) :: rs.filter (fun q => q.1 != k)

/-- `BTreeMap::extend(pairs)`: insert the pairs in order. -/
def relocExtend (rs : List (Nat × AllocId)) (pairs : List (Nat × AllocId)) :
    List (Nat × AllocId) :=
  pairs.foldl (fun acc q => relocInsert acc q.1 q.2) rs

/-- `HashMap::get(&k)` on the allocation table. -/
def allocMapGet (am : List (Nat × Allocation)) (k : Nat) : Option Allocation :=
  (am.find? (fun q => q.1 == k)).map (fun q => q.2)

/-- `HashMap::insert(k, a)` on the allocation table (replaces the entry
with an equal key). -/
def allocMapInsert (am : List (Nat × Allocation)) (k : Nat) (a : Allocation) :
    List (Nat × Allocation) :=
  (k, a) :: am.filter (fun q => q.1 != k)

/-- `Allocation::check_bounds(start, end)`. -/
def Allocation.check_bounds (a : Allocation) (start finish : Nat) :
    Except EvalError Unit :=
  if start ≤ a.bytes.length ∧ finish ≤ a.bytes.length then .ok ()
  else .error .PointerOutOfBounds

/-- `Allocation::count_overlapping_relocations(start, end)`: the number of
entries of the relocation table in
`range(Included(start.saturating_sub(8 - 1)), Excluded(end))`.  The `8` is
hardcoded in the source (its FIXME comment notes it assumes the pointer
size is 8); `Nat` subtraction is saturating subtraction. -/
def Allocation.count_overlapping_relocations (a : Allocation)
    (start finish : Nat) : Nat :=
  (a.relocations.filter
    (fun q => decide (start - (8 - 1) ≤ q.1 ∧ q.1 < finish))).length

/-- `Allocation::check_relocation_edges(start, end)`. -/
def Allocation.check_relocation_edges (a : Allocation) (start finish : Nat) :
    Except EvalError Unit :=
  match a.check_bounds start finish with
  | .error e => .error e
  | .ok _ =>
    if a.count_overlapping_relocations start start +
        a.count_overlapping_relocations finish finish = 0 then .ok ()
    else .error .ReadPointerAsBytes

/-- `Allocation::check_no_relocations(start, end)`. -/
def Allocation.check_no_relocations (a : Allocation) (start finish : Nat) :
    Except EvalError Unit :=
  match a.check_bounds start finish with
  | .error e => .error e
  | .ok _ =>
    if a.count_overlapping_relocations start finish = 0 then .ok ()
    else .error .ReadPointerAsBytes

/-- `Memory::new()`.  `pointer_size` is `mem::size_of::<usize>()`, which
is 8 on the 64-bit hosts this crate targets. -/
def Memory.new : Memory :=
  { alloc_map := [], next_id := 0, pointer_size := 8 }

/-- `Memory::allocate(size)`: register a zero-filled allocation with no
relocations under the next fresh id; infallible. -/
def Memory.allocate (m : Memory) (size : Nat) : Pointer × Memory :=
  ({ alloc_id := ⟨m.next_id⟩, offset := 0 },
   { alloc_map := allocMapInsert m.alloc_map m.next_id
       { bytes := List.replicate size 0, relocations := [] },
     next_id := m.next_id + 1,
     pointer_size := m.pointer_size })

/-- `Memory::get(id)` (and `get_mut`, which differs only in mutability). -/
def Memory.get (m : Memory) (id : AllocId) : Except EvalError Allocation :=
  match allocMapGet m.alloc_map id.id with
  | some a => .ok a
  | none => .error .DanglingPointerDeref

/-- Replacing one allocation in the table: the effect of mutating through
the reference returned by `get_mut`. -/
def Memory.setAlloc (m : Memory) (id : AllocId) (a : Allocation) : Memory :=
  { m with alloc_map := allocMapInsert m.alloc_map id.id a }

/-- `Memory::get_bytes(ptr, size)`: the checked read-only slice
`&alloc.bytes[ptr.offset..ptr.offset + size]`. -/
def Memory.get_bytes (m : Memory) (ptr : Pointer) (size : Nat) :
    Except EvalError (List Nat) :=
  match m.get ptr.alloc_id with
  | .error e => .error e
  | .ok alloc =>
    match alloc.check_no_relocations ptr.offset (ptr.offset + size) with
    | .error e => .error e
    | .ok _ => .ok ((alloc.bytes.drop ptr.offset).take size)

/-- The `get_bytes_mut(ptr, size)` pattern: run the same checks as
`get_bytes`, then overwrite the checked slice with `f slice` (every
caller in the source mutates the returned `&mut [u8]` in place; every
`f` used below preserves the slice length, as slice mutation does). -/
def Memory.mutate_bytes (m : Memory) (ptr : Pointer) (size : Nat)
    (f : List Nat → List Nat) : Except EvalError Unit × Memory :=
  match m.get ptr.alloc_id with
  | .error e => (.error e, m)
  | .ok alloc =>
    match alloc.check_no_relocations ptr.offset (ptr.offset + size) with
    | .error e => (.error e, m)
    | .ok _ =>
      let slice := (alloc.bytes.drop ptr.offset).take size
      (.ok (), m.setAlloc ptr.alloc_id
        { alloc with bytes :=
            alloc.bytes.take ptr.offset ++ f slice ++
              alloc.bytes.drop (ptr.offset + size) })

/-- `Memory::copy(src, dest, size)`: check the source range's relocation
edges, collect the source relocations in `[src.offset, src.offset+size)`,
re-home them by `+ dest.offset - src.offset`, run the `get_bytes_mut`
checks on the destination range, extend the destination relocation table,
and copy the bytes.  The byte copy is `ptr::copy` (memmove: as if through
a snapshot of the source range) when the two allocations coincide and
`ptr::copy_nonoverlapping` otherwise; both reduce to writing the
snapshot of the source range, taken before any mutation, over the
destination range. -/
def Memory.copy (m : Memory) (src dest : Pointer) (size : Nat) :
    Except EvalError Unit × Memory :=
  match m.get src.alloc_id with
  | .error e => (.error e, m)
  | .ok srcAlloc =>
    match srcAlloc.check_relocation_edges src.offset (src.offset + size) with
    | .error e => (.error e, m)
    | .ok _ =>
      let srcBytes := (srcAlloc.bytes.drop src.offset).take size
      let moved := (srcAlloc.relocations.filter
          (fun q => decide (src.offset ≤ q.1 ∧ q.1 < src.offset + size))).map
          (fun q => (q.1 + dest.offset - src.offset, q.2))
      match m.get dest.alloc_id with
      | .error e => (.error e, m)
      | .ok destAlloc =>
        match destAlloc.check_no_relocations dest.offset (dest.offset + size) with
        | .error e => (.error e, m)
        | .ok _ =>
          (.ok (), m.setAlloc dest.alloc_id
            { bytes := destAlloc.bytes.take dest.offset ++ srcBytes ++
                destAlloc.bytes.drop (dest.offset + size),
              relocations := relocExtend destAlloc.relocations moved })

/-- `Memory::write_bytes(ptr, src)`. -/
def Memory.write_bytes (m : Memory) (ptr : Pointer) (src : List Nat) :
    Except EvalError Unit × Memory :=
  m.mutate_bytes ptr src.length (fun _ => src)

/-- `Memory::read_ptr(ptr)`: check the relocation edges of the
pointer-sized range, decode the stored offset with `read_u64` (the first
8 bytes of the slice; the source would panic were `pointer_size < 8`),
then require a relocation record at `ptr.offset`. -/
def Memory.read_ptr (m : Memory) (ptr : Pointer) : Except EvalError Pointer :=
  match m.get ptr.alloc_id with
  | .error e => .error e
  | .ok alloc =>
    match alloc.check_relocation_edges ptr.offset (ptr.offset + m.pointer_size) with
    | .error e => .error e
    | .ok _ =>
      let offset := leDecode (((alloc.bytes.drop ptr.offset).take m.pointer_size).take 8)
      match relocGet alloc.relocations ptr.offset with
      | some aid => .ok { alloc_id := aid, offset := offset }
      | none => .error .ReadBytesAsPointer

/-- `Memory::write_ptr(dest, ptr_val)`: `write_u64` the offset component
(the `as u64` cast is the `% 2 ^ 64`; `write_u64` overwrites the first 8
bytes of the slice and leaves any rest of it unchanged), then insert a
relocation record at `dest.offset` naming `ptr_val.alloc_id`. -/
def Memory.write_ptr (m : Memory) (dest ptr_val : Pointer) :
    Except EvalError Unit × Memory :=
  match m.mutate_bytes dest m.pointer_size
      (fun slice => leBytes 8 (ptr_val.offset % 2 ^ 64) ++ slice.drop 8) with
  | (.error e, m1) => (.error e, m1)
  | (.ok _, m1) =>
    match m1.get dest.alloc_id with
    | .error e => (.error e, m1)
    | .ok alloc =>
      (.ok (), m1.setAlloc dest.alloc_id
        { alloc with relocations :=
            relocInsert alloc.relocations dest.offset ptr_val.alloc_id })

/-- The byte buffer a successful `write_ptr dest vp` leaves in the
destination allocation `alloc` (an abbreviation used to state lemmas
about `write_ptr`). -/
def writePtrBytes (m : Memory) (alloc : Allocation) (dest vp : Pointer) :
    List Nat :=
  alloc.bytes.take dest.offset ++
    (leBytes 8 (vp.offset % 2 ^ 64) ++
      ((alloc.bytes.drop dest.offset).take m.pointer_size).drop 8) ++
    alloc.bytes.drop (dest.offset + m.pointer_size)

/-- `Memory::read_bool(ptr)`: one byte, `0` is `false`, `1` is `true`,
anything else is `InvalidBool`.  The slice returned by `get_bytes` has
length 1, so the empty-list case of the match is unreachable. -/
def Memory.read_bool (m : Memory) (ptr : Pointer) : Except EvalError Bool :=
  match m.get_bytes ptr 1 with
  | .error e => .error e
  | .ok bs =>
    match bs with
    | 0 :: _ => .ok false
    | 1 :: _ => .ok true
    | _ => .error .InvalidBool

/-- `Memory::write_bool(ptr, b)`. -/
def Memory.write_bool (m : Memory) (ptr : Pointer) (b : Bool) :
    Except EvalError Unit × Memory :=
  m.mutate_bytes ptr 1 (fun _ => [if b then 1 else 0])

/-- `Memory::read_int(ptr, size)`: sign-extending native-endian decode of
`size` bytes. -/
def Memory.read_int (m : Memory) (ptr : Pointer) (size : Nat) :
    Except EvalError Int :=
  (m.get_bytes ptr size).map (fun bs => leDecodeSigned bs)

/-- `Memory::write_int(ptr, n, size)`: write the `size` low bytes of the
two's complement of `n` (`byteorder` panics when `n` is not representable
in `size` bytes; the claims below only apply it to representable
values). -/
def Memory.write_int (m : Memory) (ptr : Pointer) (n : Int) (size : Nat) :
    Except EvalError Unit × Memory :=
  m.mutate_bytes ptr size (fun _ => leBytes size (n % (2 : Int) ^ (8 * size)).toNat)

/-- `Memory::read_uint(ptr, size)`. -/
def Memory.read_uint (m : Memory) (ptr : Pointer) (size : Nat) :
    Except EvalError Nat :=
  (m.get_bytes ptr size).map (fun bs => leDecode bs)

/-- `Memory::write_uint(ptr, n, size)` (`byteorder` panics when `n` is not
representable in `size` bytes; the claims below only apply it to
representable values). -/
def Memory.write_uint (m : Memory) (ptr : Pointer) (n : Nat) (size : Nat) :
    Except EvalError Unit × Memory :=
  m.mutate_bytes ptr size (fun _ => leBytes size (n % 2 ^ (8 * size)))

/-- `Memory::read_isize(ptr)`. -/
def Memory.read_isize (m : Memory) (ptr : Pointer) : Except EvalError Int :=
  m.read_int ptr m.pointer_size

/-- `Memory::write_isize(ptr, n)`. -/
def Memory.write_isize (m : Memory) (ptr : Pointer) (n : Int) :
    Except EvalError Unit × Memory :=
  m.write_int ptr n m.pointer_size

/-- `Memory::read_usize(ptr)`. -/
def Memory.read_usize (m : Memory) (ptr : Pointer) : Except EvalError Nat :=
  m.read_uint ptr m.pointer_size

/-- `Memory::write_usize(ptr, n)`. -/
def Memory.write_usize (m : Memory) (ptr : Pointer) (n : Nat) :
    Except EvalError Unit × Memory :=
  m.write_uint ptr n m.pointer_size

/-- `Memory::write_primval(ptr, val)`: dispatch on the tag.  The
`AbstractPtr` arm is `unimplemented!()` in the source (it diverges and
never produces a state); it is modelled as leaving the memory unchanged,
which makes every state-invariant statement about it vacuously
faithful. -/
def Memory.write_primval (m : Memory) (ptr : Pointer) (val : PrimVal) :
    Except EvalError Unit × Memory :=
  match val with
  | .Bool b => m.write_bool ptr b
  | .I8 n => m.write_int ptr n 1
  | .I16 n => m.write_int ptr n 2
  | .I32 n => m.write_int ptr n 4
  | .I64 n => m.write_int ptr n 8
  | .U8 n => m.write_uint ptr n 1
  | .U16 n => m.write_uint ptr n 2
  | .U32 n => m.write_uint ptr n 4
  | .U64 n => m.write_uint ptr n 8
  | .IntegerPtr n => m.write_uint ptr n 8
  | .AbstractPtr _ => (.ok (), m)

/-- The relocation-table invariant of the spec's data model: every key of
an allocation's relocation map lies strictly within `[0, bytes.length)`. -/
def Allocation.RelocKeysInBounds (a : Allocation) : Prop :=
  ∀ q ∈ a.relocations, q.1 < a.bytes.length

instance (a : Allocation) : Decidable a.RelocKeysInBounds :=
  inferInstanceAs (Decidable (∀ q ∈ a.relocations, q.1 < a.bytes.length))

/-- The relocation-table invariant for every allocation in the table. -/
def Memory.Inv (m : Memory) : Prop :=
  ∀ e ∈ m.alloc_map, e.2.RelocKeysInBounds

instance (m : Memory) : Decidable m.Inv :=
  inferInstanceAs (Decidable (∀ e ∈ m.alloc_map, e.2.RelocKeysInBounds))

/-! ### Helper lemmas about the byte codec -/

lemma leBytes_length (w u : Nat) : (leBytes w u).length = w := by
  induction w generalizing u with
  | zero => rfl
  | succ w ih => simp [leBytes, ih]

lemma leDecode_leBytes (w u : Nat) : leDecode (leBytes w u) = u % 256 ^ w := by
  induction w generalizing u with
  | zero => simp [leBytes, leDecode, Nat.mod_one]
  | succ w ih =>
    simp only [leBytes, leDecode, ih]
    rw [pow_succ, mul_comm (256 ^ w) 256, Nat.mod_mul]

lemma pow256_eq (w : Nat) : (256 : Nat) ^ w = 2 ^ (8 * w) := by
  rw [show (256 : Nat) = 2 ^ 8 from rfl, ← pow_mul]

lemma leDecodeSigned_leBytes (w : Nat) (n : Int) (hw : 1 ≤ w)
    (h1 : -(2 ^ (8 * w - 1) : Int) ≤ n) (h2 : n < 2 ^ (8 * w - 1)) :
    leDecodeSigned (leBytes w (n % (2 : Int) ^ (8 * w)).toNat) = n := by
  have hAB : ((2 ^ (8 * w - 1) : Nat) : Int) = 2 ^ (8 * w - 1) := by norm_cast
  have hsplitInt : (2 : Int) ^ (8 * w) = 2 * 2 ^ (8 * w - 1) := by
    rw [← pow_succ']
    congr 1
    omega
  have hsplitNat : (2 : Nat) ^ (8 * w) = 2 * 2 ^ (8 * w - 1) := by
    rw [← pow_succ']
    congr 1
    omega
  have hApos : (0 : Int) < 2 ^ (8 * w - 1) := by positivity
  have hnonneg : 0 ≤ n % (2 : Int) ^ (8 * w) :=
    Int.emod_nonneg n (by positivity)
  have hval : n % (2 : Int) ^ (8 * w) =
      if 0 ≤ n then n else n + 2 ^ (8 * w) := by
    split
    · exact Int.emod_eq_of_lt (by assumption) (by rw [hsplitInt]; omega)
    · rw [show n + (2 : Int) ^ (8 * w) = n + 2 ^ (8 * w) * 1 by ring] at *
      rw [← Int.add_mul_emod_self_left (a := n) (b := (2 : Int) ^ (8 * w)) (c := 1)]
      exact Int.emod_eq_of_lt (by rw [hsplitInt]; omega) (by rw [hsplitInt]; omega)
  have htn : ((n % (2 : Int) ^ (8 * w)).toNat : Int) = n % (2 : Int) ^ (8 * w) :=
    Int.toNat_of_nonneg hnonneg
  unfold leDecodeSigned
  rw [leBytes_length, leDecode_leBytes, pow256_eq]
  have hmod : (n % (2 : Int) ^ (8 * w)).toNat % 2 ^ (8 * w) =
      (n % (2 : Int) ^ (8 * w)).toNat := by
    apply Nat.mod_eq_of_lt
    have := Int.emod_lt_of_pos n (b := (2 : Int) ^ (8 * w)) (by positivity)
    omega
  rw [hmod]
  split
  · omega
  · omega

/-! ### Helper lemmas about the relocation and allocation maps -/

lemma relocGet_insert_self (rs : List (Nat × AllocId)) (k : Nat) (v : AllocId) :
    relocGet (relocInsert rs k v) k = some v := by
  simp [relocGet, relocInsert, List.find?_cons]

lemma find?_key_filter_ne (rs : List (Nat × AllocId)) (k k2 : Nat) (h : k2 ≠ k) :
    (rs.filter (fun q => q.1 != k)).find? (fun q => q.1 == k2) =
      rs.find? (fun q => q.1 == k2) := by
  induction rs with
  | nil => rfl
  | cons a t ih =>
    have hk : k ≠ k2 := fun he => h he.symm
    by_cases h1 : a.1 = k2
    · have h2 : a.1 ≠ k := by omega
      simp [List.filter_cons, List.find?_cons, h1, h2, h, hk]
    · by_cases h2 : a.1 = k <;>
        simp [List.filter_cons, List.find?_cons, h1, h2, h, hk, ih]

lemma relocGet_insert_ne (rs : List (Nat × AllocId)) (k k2 : Nat) (v : AllocId)
    (h : k2 ≠ k) : relocGet (relocInsert rs k v) k2 = relocGet rs k2 := by
  simp only [relocGet, relocInsert, List.find?_cons]
  have : ((k, v).1 == k2) = false := by simp; omega
  rw [this]
  rw [find?_key_filter_ne rs k k2 h]

lemma relocGet_extend_not_mem (pairs : List (Nat × AllocId)) (k : Nat) :
    ∀ rs, (∀ q ∈ pairs, q.1 ≠ k) →
      relocGet (relocExtend rs pairs) k = relocGet rs k := by
  induction pairs with
  | nil => intro rs _; rfl
  | cons a t ih =>
    intro rs h
    have step : relocExtend rs (a :: t) = relocExtend (relocInsert rs a.1 a.2) t := rfl
    rw [step, ih _ (fun q hq => h q (List.mem_cons_of_mem a hq))]
    exact relocGet_insert_ne rs a.1 k a.2
      (fun he => h a (List.mem_cons_self a t) he.symm)

lemma relocGet_extend_mem (pairs : List (Nat × AllocId)) (k : Nat) (v : AllocId) :
    ∀ rs, (pairs.map Prod.fst).Nodup → (k, v) ∈ pairs →
      relocGet (relocExtend rs pairs) k = some v := by
  induction pairs with
  | nil => intro rs _ hmem; cases hmem
  | cons a t ih =>
    intro rs hnd hmem
    have step : relocExtend rs (a :: t) = relocExtend (relocInsert rs a.1 a.2) t := rfl
    rw [List.map_cons, List.nodup_cons] at hnd
    rcases List.mem_cons.mp hmem with heq | hmem2
    · have hnot : ∀ q ∈ t, q.1 ≠ k := by
        intro q hq he
        apply hnd.1
        have ha1 : a.1 = k := by rw [← heq]
        rw [ha1, ← he]
        exact List.mem_map_of_mem Prod.fst hq
      rw [step, relocGet_extend_not_mem t k _ hnot, ← heq]
      exact relocGet_insert_self rs k v
    · exact step ▸ ih _ hnd.2 hmem2

lemma allocMapGet_insert_self (am : List (Nat × Allocation)) (k : Nat)
    (a : Allocation) : allocMapGet (allocMapInsert am k a) k = some a := by
  simp [allocMapGet, allocMapInsert, List.find?_cons]

lemma Memory.get_setAlloc_self (m : Memory) (id : AllocId) (a : Allocation) :
    (m.setAlloc id a).get id = .ok a := by
  simp [Memory.get, Memory.setAlloc, allocMapGet_insert_self]

lemma Memory.get_mem (m : Memory) (id : AllocId) (a : Allocation)
    (h : m.get id = .ok a) : ∃ k, (k, a) ∈ m.alloc_map := by
  unfold Memory.get allocMapGet at h
  rcases hf : m.alloc_map.find? (fun q => q.1 == id.id) with _ | q
  · rw [hf] at h; simp at h
  · rw [hf] at h
    simp at h
    exact ⟨q.1, h ▸ List.mem_of_find?_eq_some hf⟩

/-! ### Helper lemmas about the checks -/

lemma count_eq_zero_iff (a : Allocation) (s f : Nat) :
    a.count_overlapping_relocations s f = 0 ↔
      ∀ q ∈ a.relocations, ¬(s - (8 - 1) ≤ q.1 ∧ q.1 < f) := by
  simp [Allocation.count_overlapping_relocations, List.length_eq_zero,
    List.filter_eq_nil_iff]

lemma check_bounds_ok_iff (a : Allocation) (s f : Nat) :
    a.check_bounds s f = .ok () ↔ s ≤ a.bytes.length ∧ f ≤ a.bytes.length := by
  unfold Allocation.check_bounds
  split <;> simp_all

lemma check_no_relocations_ok_iff (a : Allocation) (s f : Nat) :
    a.check_no_relocations s f = .ok () ↔
      s ≤ a.bytes.length ∧ f ≤ a.bytes.length ∧
        a.count_overlapping_relocations s f = 0 := by
  unfold Allocation.check_no_relocations Allocation.check_bounds
  by_cases hb : s ≤ a.bytes.length ∧ f ≤ a.bytes.length
  · by_cases hc : a.count_overlapping_relocations s f = 0 <;> simp [hb, hc]
  · simp only [if_neg hb]
    simp only [show ((Except.error EvalError.PointerOutOfBounds :
      Except EvalError Unit) = .ok ()) ↔ False by simp, false_iff]
    tauto

lemma check_no_relocations_err_reloc (a : Allocation) (s f : Nat)
    (h1 : s ≤ a.bytes.length) (h2 : f ≤ a.bytes.length)
    (h3 : a.count_overlapping_relocations s f ≠ 0) :
    a.check_no_relocations s f = .error .ReadPointerAsBytes := by
  unfold Allocation.check_no_relocations Allocation.check_bounds
  rw [if_pos ⟨h1, h2⟩]
  simp [h3]

lemma check_no_relocations_err_oob (a : Allocation) (s f : Nat)
    (h : ¬(s ≤ a.bytes.length ∧ f ≤ a.bytes.length)) :
    a.check_no_relocations s f = .error .PointerOutOfBounds := by
  unfold Allocation.check_no_relocations Allocation.check_bounds
  rw [if_neg h]

lemma check_relocation_edges_ok_iff (a : Allocation) (s f : Nat) :
    a.check_relocation_edges s f = .ok () ↔
      s ≤ a.bytes.length ∧ f ≤ a.bytes.length ∧
        a.count_overlapping_relocations s s +
          a.count_overlapping_relocations f f = 0 := by
  unfold Allocation.check_relocation_edges Allocation.check_bounds
  by_cases hb : s ≤ a.bytes.length ∧ f ≤ a.bytes.length
  · by_cases hc : a.count_overlapping_relocations s s +
      a.count_overlapping_relocations f f = 0 <;> simp [hb, hc]
  · simp only [if_neg hb]
    simp only [show ((Except.error EvalError.PointerOutOfBounds :
      Except EvalError Unit) = .ok ()) ↔ False by simp, false_iff]
    tauto

lemma check_relocation_edges_err_reloc (a : Allocation) (s f : Nat)
    (h1 : s ≤ a.bytes.length) (h2 : f ≤ a.bytes.length)
    (h3 : a.count_overlapping_relocations s s +
      a.count_overlapping_relocations f f ≠ 0) :
    a.check_relocation_edges s f = .error .ReadPointerAsBytes := by
  unfold Allocation.check_relocation_edges Allocation.check_bounds
  rw [if_pos ⟨h1, h2⟩]
  simp [h3]

/-! ### List surgery lemmas for the byte buffers -/

lemma drop_take_append (l1 l2 l3 : List Nat) (o size : Nat)
    (h1 : l1.length = o) (h2 : l2.length = size) :
    ((l1 ++ l2 ++ l3).drop o).take size = l2 := by
  subst h1
  subst h2
  rw [List.append_assoc, List.drop_left, List.take_left]

lemma get_append_middle (l1 l2 l3 : List Nat) (o j : Nat)
    (h1 : l1.length = o) (hj : j < l2.length) :
    (l1 ++ l2 ++ l3)[o + j]? = l2[j]? := by
  subst h1
  rw [List.append_assoc, List.getElem?_append_right (by omega),
    Nat.add_sub_cancel_left, List.getElem?_append, if_pos hj]

lemma get_append_outside (l1 l2 l3 : List Nat) (o size i : Nat)
    (h1 : l1.length = o) (h2 : l2.length = size)
    (hi : i < o ∨ o + size ≤ i) :
    (l1 ++ l2 ++ l3)[i]? = if i < o then l1[i]? else l3[i - o - size]? := by
  subst h1
  subst h2
  rcases hi with hi | hi
  · rw [List.append_assoc, List.getElem?_append, if_pos hi, if_pos hi]
  · rw [List.append_assoc, List.getElem?_append_right (by omega),
      List.getElem?_append_right (by omega), if_neg (by omega)]

lemma slice_get (bytes : List Nat) (s size j : Nat) (hj : j < size) :
    ((bytes.drop s).take size)[j]? = bytes[s + j]? := by
  rw [List.getElem?_take, if_pos hj, List.getElem?_drop]

lemma slice_length (bytes : List Nat) (s size : Nat)
    (h : s + size ≤ bytes.length) :
    ((bytes.drop s).take size).length = size := by
  simp only [List.length_take, List.length_drop]
  omega

lemma write_back_length (bytes mid : List Nat) (o size : Nat)
    (h1 : o ≤ bytes.length) :
    (bytes.take o ++ mid ++ bytes.drop (o + size)).length =
      o + mid.length + (bytes.length - (o + size)) := by
  simp only [List.length_append, List.length_take, List.length_drop]
  rw [min_eq_left h1]

/-! ### Success and failure characterizations of the byte accessors -/

lemma get_bytes_ok (m : Memory) (ptr : Pointer) (size : Nat)
    (alloc : Allocation) (hget : m.get ptr.alloc_id = .ok alloc)
    (hchk : alloc.check_no_relocations ptr.offset (ptr.offset + size) = .ok ()) :
    m.get_bytes ptr size = .ok ((alloc.bytes.drop ptr.offset).take size) := by
  simp only [Memory.get_bytes, hget, hchk]

lemma get_bytes_err (m : Memory) (ptr : Pointer) (size : Nat)
    (alloc : Allocation) (e : EvalError)
    (hget : m.get ptr.alloc_id = .ok alloc)
    (hchk : alloc.check_no_relocations ptr.offset (ptr.offset + size) = .error e) :
    m.get_bytes ptr size = .error e := by
  simp only [Memory.get_bytes, hget, hchk]

lemma mutate_bytes_ok (m : Memory) (ptr : Pointer) (size : Nat)
    (f : List Nat → List Nat) (alloc : Allocation)
    (hget : m.get ptr.alloc_id = .ok alloc)
    (hchk : alloc.check_no_relocations ptr.offset (ptr.offset + size) = .ok ()) :
    m.mutate_bytes ptr size f =
      (.ok (), m.setAlloc ptr.alloc_id
        { alloc with bytes := (alloc.bytes.take ptr.offset ++
            f ((alloc.bytes.drop ptr.offset).take size) ++
            alloc.bytes.drop (ptr.offset + size)) }) := by
  simp only [Memory.mutate_bytes, hget, hchk]

lemma mutate_bytes_err (m : Memory) (ptr : Pointer) (size : Nat)
    (f : List Nat → List Nat) (alloc : Allocation) (e : EvalError)
    (hget : m.get ptr.alloc_id = .ok alloc)
    (hchk : alloc.check_no_relocations ptr.offset (ptr.offset + size) = .error e) :
    m.mutate_bytes ptr size f = (.error e, m) := by
  simp only [Memory.mutate_bytes, hget, hchk]

lemma write_ptr_ok (m : Memory) (dest vp : Pointer) (alloc : Allocation)
    (hget : m.get dest.alloc_id = .ok alloc)
    (hchk : alloc.check_no_relocations dest.offset
      (dest.offset + m.pointer_size) = .ok ()) :
    m.write_ptr dest vp =
      (.ok (), (m.setAlloc dest.alloc_id
          { alloc with bytes := writePtrBytes m alloc dest vp }).setAlloc dest.alloc_id
        { bytes := writePtrBytes m alloc dest vp,
          relocations :=
            relocInsert alloc.relocations dest.offset vp.alloc_id }) := by
  simp only [Memory.write_ptr,
    mutate_bytes_ok m dest m.pointer_size _ alloc hget hchk,
    Memory.get_setAlloc_self, writePtrBytes]

lemma allocate_get (m : Memory) (size : Nat) :
    (m.allocate size).2.get (m.allocate size).1.alloc_id =
      .ok ⟨List.replicate size 0, []⟩ := by
  simp [Memory.allocate, Memory.get, allocMapGet_insert_self]

/-! ### Preservation of the relocation-key invariant -/

lemma Memory.Inv.setAlloc (m : Memory) (hm : m.Inv) (id : AllocId)
    (a : Allocation) (ha : a.RelocKeysInBounds) : (m.setAlloc id a).Inv := by
  intro e he
  unfold Memory.setAlloc allocMapInsert at he
  rcases List.mem_cons.mp he with heq | hmem
  · rw [heq]
    exact ha
  · exact hm e (List.mem_of_mem_filter hmem)

lemma Memory.Inv.get (m : Memory) (hm : m.Inv) (id : AllocId) (a : Allocation)
    (h : m.get id = .ok a) : a.RelocKeysInBounds := by
  obtain ⟨k, hk⟩ := m.get_mem id a h
  exact hm (k, a) hk

lemma Memory.Inv.allocate (m : Memory) (hm : m.Inv) (size : Nat) :
    (m.allocate size).2.Inv := by
  intro e he
  unfold Memory.allocate allocMapInsert at he
  rcases List.mem_cons.mp he with heq | hmem
  · rw [heq]
    intro q hq
    cases hq
  · exact hm e (List.mem_of_mem_filter hmem)

lemma Memory.Inv.mutate_bytes (m : Memory) (ptr : Pointer) (size : Nat)
    (f : List Nat → List Nat) (hm : m.Inv)
    (hf : ∀ s : List Nat, s.length = size → size ≤ (f s).length) :
    (m.mutate_bytes ptr size f).2.Inv := by
  cases hget : m.get ptr.alloc_id with
  | error e =>
    simp only [Memory.mutate_bytes, hget]
    exact hm
  | ok alloc =>
    cases hchk : alloc.check_no_relocations ptr.offset (ptr.offset + size) with
    | error e =>
      simp only [Memory.mutate_bytes, hget, hchk]
      exact hm
    | ok u =>
      rw [mutate_bytes_ok m ptr size f alloc hget hchk]
      apply Memory.Inv.setAlloc m hm
      intro q hq
      obtain ⟨hb1, hb2, -⟩ :=
        (check_no_relocations_ok_iff alloc ptr.offset (ptr.offset + size)).mp hchk
      have hkey := Memory.Inv.get m hm ptr.alloc_id alloc hget q hq
      have hslice : ((alloc.bytes.drop ptr.offset).take size).length = size :=
        slice_length _ _ _ hb2
      have hflen := hf _ hslice
      have hlen := write_back_length alloc.bytes
        (f ((alloc.bytes.drop ptr.offset).take size)) ptr.offset size hb1
      simp only [hlen]
      omega

lemma Memory.Inv.write_bytes (m : Memory) (hm : m.Inv) (ptr : Pointer)
    (src : List Nat) : (m.write_bytes ptr src).2.Inv :=
  Memory.Inv.mutate_bytes m ptr src.length _ hm (fun _s _ => le_of_eq rfl)

lemma Memory.Inv.write_bool (m : Memory) (hm : m.Inv) (ptr : Pointer)
    (b : Bool) : (m.write_bool ptr b).2.Inv :=
  Memory.Inv.mutate_bytes m ptr 1 _ hm (fun _s _ => by simp)

lemma Memory.Inv.write_int (m : Memory) (hm : m.Inv) (ptr : Pointer)
    (n : Int) (size : Nat) : (m.write_int ptr n size).2.Inv :=
  Memory.Inv.mutate_bytes m ptr size _ hm
    (fun _s _ => le_of_eq (leBytes_length _ _).symm)

lemma Memory.Inv.write_uint (m : Memory) (hm : m.Inv) (ptr : Pointer)
    (n : Nat) (size : Nat) : (m.write_uint ptr n size).2.Inv :=
  Memory.Inv.mutate_bytes m ptr size _ hm
    (fun _s _ => le_of_eq (leBytes_length _ _).symm)

lemma Memory.Inv.write_ptr (m : Memory) (hm : m.Inv) (dest vp : Pointer) :
    (m.write_ptr dest vp).2.Inv := by
  cases hget : m.get dest.alloc_id with
  | error e =>
    simp only [Memory.write_ptr, Memory.mutate_bytes, hget]
    exact hm
  | ok alloc =>
    cases hchk : alloc.check_no_relocations dest.offset
        (dest.offset + m.pointer_size) with
    | error e =>
      simp only [Memory.write_ptr, Memory.mutate_bytes, hget, hchk]
      exact hm
    | ok u =>
      rw [write_ptr_ok m dest vp alloc hget hchk]
      obtain ⟨hb1, hb2, -⟩ := (check_no_relocations_ok_iff alloc dest.offset
        (dest.offset + m.pointer_size)).mp hchk
      have hkeys := Memory.Inv.get m hm dest.alloc_id alloc hget
      have hslice : ((alloc.bytes.drop dest.offset).take m.pointer_size).length =
          m.pointer_size := slice_length _ _ _ hb2
      have hnb : (writePtrBytes m alloc dest vp).length =
          dest.offset + (8 + (m.pointer_size - 8)) +
            (alloc.bytes.length - (dest.offset + m.pointer_size)) := by
        unfold writePtrBytes
        rw [write_back_length _ _ _ _ hb1]
        simp only [List.length_append, leBytes_length, List.length_drop, hslice]
      apply Memory.Inv.setAlloc
      · apply Memory.Inv.setAlloc m hm
        intro q hq
        have h1 := hkeys q hq
        show q.1 < (writePtrBytes m alloc dest vp).length
        rw [hnb]
        omega
      · intro q hq
        show q.1 < (writePtrBytes m alloc dest vp).length
        rw [hnb]
        rcases List.mem_cons.mp hq with heq | hmem
        · rw [heq]
          omega
        · have h1 := hkeys q (List.mem_of_mem_filter hmem)
          omega

lemma relocExtend_keys_lt (pairs : List (Nat × AllocId)) (L : Nat) :
    ∀ rs : List (Nat × AllocId), (∀ q ∈ rs, q.1 < L) → (∀ q ∈ pairs, q.1 < L) →
      ∀ q ∈ relocExtend rs pairs, q.1 < L := by
  induction pairs with
  | nil => exact fun rs hrs _ q hq => hrs q hq
  | cons a t ih =>
    intro rs hrs hp q hq
    have step : relocExtend rs (a :: t) = relocExtend (relocInsert rs a.1 a.2) t := rfl
    rw [step] at hq
    refine ih (relocInsert rs a.1 a.2) ?_
      (fun q2 hq2 => hp q2 (List.mem_cons_of_mem a hq2)) q hq
    intro q2 hq2
    rcases List.mem_cons.mp hq2 with heq | hmem
    · rw [heq]
      exact hp a (List.mem_cons_self a t)
    · exact hrs q2 (List.mem_of_mem_filter hmem)

lemma Memory.Inv.copy (m : Memory) (hm : m.Inv) (src dest : Pointer)
    (size : Nat) : (m.copy src dest size).2.Inv := by
  cases hgs : m.get src.alloc_id with
  | error e =>
    simp only [Memory.copy, hgs]
    exact hm
  | ok sa =>
    cases hce : sa.check_relocation_edges src.offset (src.offset + size) with
    | error e =>
      simp only [Memory.copy, hgs, hce]
      exact hm
    | ok u =>
      cases hgd : m.get dest.alloc_id with
      | error e =>
        simp only [Memory.copy, hgs, hce, hgd]
        exact hm
      | ok da =>
        cases hcd : da.check_no_relocations dest.offset (dest.offset + size) with
        | error e =>
          simp only [Memory.copy, hgs, hce, hgd, hcd]
          exact hm
        | ok u2 =>
          simp only [Memory.copy, hgs, hce, hgd, hcd]
          apply Memory.Inv.setAlloc m hm
          obtain ⟨hsb1, hsb2, -⟩ := (check_relocation_edges_ok_iff sa src.offset
            (src.offset + size)).mp hce
          obtain ⟨hdb1, hdb2, -⟩ := (check_no_relocations_ok_iff da dest.offset
            (dest.offset + size)).mp hcd
          have hsl : ((sa.bytes.drop src.offset).take size).length = size :=
            slice_length _ _ _ hsb2
          have hnb : (da.bytes.take dest.offset ++
              (sa.bytes.drop src.offset).take size ++
              da.bytes.drop (dest.offset + size)).length = da.bytes.length := by
            rw [write_back_length _ _ _ _ hdb1, hsl]
            omega
          intro q hq
          simp only [hnb]
          refine relocExtend_keys_lt _ da.bytes.length _
            (fun q2 hq2 => Memory.Inv.get m hm dest.alloc_id da hgd q2 hq2) ?_ q hq
          intro q2 hq2
          simp only [List.mem_map, List.mem_filter] at hq2
          obtain ⟨q0, ⟨hq0mem, hq0rng⟩, hq0eq⟩ := hq2
          rw [← hq0eq]
          simp only [decide_eq_true_eq] at hq0rng
          omega

/-! ### The claims -/

/-- C3: for every allocation and all offsets `start`, `end`,
`count_overlapping_relocations(start, end)` counts exactly the relocation
records whose offset lies in the half-open interval
`[start − (pointer_size − 1), end)`, the lower bound saturating at zero
(`Nat` subtraction saturates); `pointer_size` is the byte-width configured
by `Memory::new` (the source hardcodes the equal constant `8`, as its
FIXME comment records). -/
theorem claim_c3_count_overlapping (a : Allocation) (start finish : Nat) :
    a.count_overlapping_relocations start finish =
      (a.relocations.filter (fun q =>
        decide (start - (Memory.new.pointer_size - 1) ≤ q.1 ∧
          q.1 < finish))).length := rfl

/-- C8: `allocate(size)` never fails (it returns a plain pair, with no
error outcome), returns a pointer with offset 0 whose id is freshly
minted — distinct from every id in the table, all of which are below the
monotone counter `next_id` — and registers an allocation of exactly
`size` bytes, all zero, with an empty relocation table; the counter
invariant is preserved, so ids are never reused. -/
theorem claim_c8_allocate (m : Memory) (size : Nat)
    (hfresh : ∀ q ∈ m.alloc_map, q.1 < m.next_id) :
    (m.allocate size).1.offset = 0 ∧
    (∀ q ∈ m.alloc_map, q.1 ≠ (m.allocate size).1.alloc_id.id) ∧
    (m.allocate size).2.get (m.allocate size).1.alloc_id =
      .ok { bytes := List.replicate size 0, relocations := [] } ∧
    (List.replicate size (0 : Nat)).length = size ∧
    (∀ b ∈ List.replicate size (0 : Nat), b = 0) ∧
    (∀ q ∈ (m.allocate size).2.alloc_map, q.1 < (m.allocate size).2.next_id) := by
  refine ⟨rfl, ?_, allocate_get m size, List.length_replicate size 0,
    fun b hb => List.eq_of_mem_replicate hb, ?_⟩
  · intro q hq hno
    have h1 := hfresh q hq
    have h2 : q.1 = m.next_id := hno
    omega
  · intro q hq
    have hq2 : q ∈ allocMapInsert m.alloc_map m.next_id
        { bytes := List.replicate size 0, relocations := [] } := hq
    show q.1 < m.next_id + 1
    unfold allocMapInsert at hq2
    rcases List.mem_cons.mp hq2 with heq | hmem
    · rw [heq]
      omega
    · have := hfresh q (List.mem_of_mem_filter hmem)
      omega

/-- C8 witness: the allocate postconditions at a concrete input. -/
theorem claim_c8_allocate_witness :
    (Memory.new.allocate 3).1.offset = 0 ∧
    (∀ q ∈ Memory.new.alloc_map, q.1 ≠ (Memory.new.allocate 3).1.alloc_id.id) ∧
    (Memory.new.allocate 3).2.get (Memory.new.allocate 3).1.alloc_id =
      .ok { bytes := List.replicate 3 0, relocations := [] } ∧
    (List.replicate 3 (0 : Nat)).length = 3 ∧
    (∀ b ∈ List.replicate 3 (0 : Nat), b = 0) ∧
    (∀ q ∈ (Memory.new.allocate 3).2.alloc_map,
      q.1 < (Memory.new.allocate 3).2.next_id) :=
  claim_c8_allocate Memory.new 3 (by decide)

/-- C10: whenever the bounds check and the relocation check inside
`get_bytes(ptr, size)` both pass, the slice indexing
`bytes[ptr.offset .. ptr.offset + size]` is within the buffer (so the
panicking out-of-bounds branch of the Rust indexing is unreachable) and
the call returns `Ok` with a slice of exactly `size` bytes; the identical
checks govern `get_bytes_mut` (embedded as `mutate_bytes`), which then
also succeeds. -/
theorem claim_c10_get_bytes_safe (m : Memory) (ptr : Pointer) (size : Nat)
    (alloc : Allocation) (hget : m.get ptr.alloc_id = .ok alloc)
    (hchk : alloc.check_no_relocations ptr.offset (ptr.offset + size) = .ok ()) :
    ptr.offset + size ≤ alloc.bytes.length ∧
    m.get_bytes ptr size = .ok ((alloc.bytes.drop ptr.offset).take size) ∧
    ((alloc.bytes.drop ptr.offset).take size).length = size ∧
    (∀ f : List Nat → List Nat, (m.mutate_bytes ptr size f).1 = .ok ()) := by
  obtain ⟨h1, h2, -⟩ := (check_no_relocations_ok_iff alloc ptr.offset
    (ptr.offset + size)).mp hchk
  exact ⟨h2, get_bytes_ok m ptr size alloc hget hchk, slice_length _ _ _ h2,
    fun f => by rw [mutate_bytes_ok m ptr size f alloc hget hchk]⟩

/-- C10 witness: the checked slice access at a concrete input. -/
theorem claim_c10_get_bytes_safe_witness :
    (1 : Nat) + 2 ≤ (List.replicate 4 (0 : Nat)).length ∧
    (Memory.new.allocate 4).2.get_bytes ⟨⟨0⟩, 1⟩ 2 =
      .ok (((List.replicate 4 (0 : Nat)).drop 1).take 2) ∧
    (((List.replicate 4 (0 : Nat)).drop 1).take 2).length = 2 ∧
    (∀ f : List Nat → List Nat,
      ((Memory.new.allocate 4).2.mutate_bytes ⟨⟨0⟩, 1⟩ 2 f).1 = .ok ()) :=
  claim_c10_get_bytes_safe (Memory.new.allocate 4).2 ⟨⟨0⟩, 1⟩ 2
    { bytes := List.replicate 4 0, relocations := [] } (by decide) (by decide)

/-- Writing a `w`-byte payload through the checked mutable slice and
reading the same range back through `get_bytes` returns the payload. -/
lemma write_then_read_slice (m : Memory) (p : Pointer) (alloc : Allocation)
    (w : Nat) (bs : List Nat) (hbs : bs.length = w)
    (hget : m.get p.alloc_id = .ok alloc)
    (hbound : p.offset + w ≤ alloc.bytes.length)
    (hclean : alloc.count_overlapping_relocations p.offset (p.offset + w) = 0) :
    (m.mutate_bytes p w (fun _ => bs)).1 = .ok () ∧
    (m.mutate_bytes p w (fun _ => bs)).2.get_bytes p w = .ok bs := by
  have hchk : alloc.check_no_relocations p.offset (p.offset + w) = .ok () :=
    (check_no_relocations_ok_iff _ _ _).mpr ⟨by omega, hbound, hclean⟩
  rw [mutate_bytes_ok m p w _ alloc hget hchk]
  refine ⟨rfl, ?_⟩
  have hlen : (alloc.bytes.take p.offset ++ bs ++
      alloc.bytes.drop (p.offset + w)).length = alloc.bytes.length := by
    rw [write_back_length _ _ _ _ (by omega), hbs]
    omega
  have hchk2 : (⟨alloc.bytes.take p.offset ++ bs ++
      alloc.bytes.drop (p.offset + w), alloc.relocations⟩ :
        Allocation).check_no_relocations p.offset (p.offset + w) = .ok () := by
    refine (check_no_relocations_ok_iff _ _ _).mpr ⟨?_, ?_, hclean⟩
    · show p.offset ≤ (alloc.bytes.take p.offset ++ bs ++
        alloc.bytes.drop (p.offset + w)).length
      omega
    · show p.offset + w ≤ (alloc.bytes.take p.offset ++ bs ++
        alloc.bytes.drop (p.offset + w)).length
      omega
  rw [get_bytes_ok _ p w _ (Memory.get_setAlloc_self m p.alloc_id _) hchk2]
  rw [drop_take_append _ _ _ _ _ (by rw [List.length_take]; omega) hbs]

/-- C7: for every width `w ∈ {1,2,4,8}`, every signed integer
representable in `w` bytes and every unsigned integer representable in
`w` bytes, writing at a pointer with `w` in-bounds relocation-free bytes
succeeds, and reading the value back returns it:
`write_int(p, n, w); read_int(p, w) = Ok(n)` and
`write_uint(p, u, w); read_uint(p, w) = Ok(u)`. -/
theorem claim_c7_int_roundtrip (m : Memory) (p : Pointer) (alloc : Allocation)
    (w : Nat) (n : Int) (u : Nat)
    (hw : w = 1 ∨ w = 2 ∨ w = 4 ∨ w = 8)
    (hget : m.get p.alloc_id = .ok alloc)
    (hbound : p.offset + w ≤ alloc.bytes.length)
    (hclean : alloc.count_overlapping_relocations p.offset (p.offset + w) = 0)
    (hn1 : -(2 ^ (8 * w - 1) : Int) ≤ n) (hn2 : n < 2 ^ (8 * w - 1))
    (hu : u < 2 ^ (8 * w)) :
    ((m.write_int p n w).1 = .ok () ∧
      (m.write_int p n w).2.read_int p w = .ok n) ∧
    ((m.write_uint p u w).1 = .ok () ∧
      (m.write_uint p u w).2.read_uint p w = .ok u) := by
  constructor
  · have h := write_then_read_slice m p alloc w
      (leBytes w (n % (2 : Int) ^ (8 * w)).toNat) (leBytes_length _ _)
      hget hbound hclean
    refine ⟨h.1, ?_⟩
    show ((m.write_int p n w).2.get_bytes p w).map (fun bs => leDecodeSigned bs)
      = .ok n
    rw [show (m.write_int p n w).2 =
      (m.mutate_bytes p w (fun _ => leBytes w (n % (2 : Int) ^ (8 * w)).toNat)).2
      from rfl]
    rw [h.2]
    show Except.ok (leDecodeSigned (leBytes w (n % (2 : Int) ^ (8 * w)).toNat))
      = .ok n
    rw [leDecodeSigned_leBytes w n (by omega) hn1 hn2]
  · have h := write_then_read_slice m p alloc w (leBytes w (u % 2 ^ (8 * w)))
      (leBytes_length _ _) hget hbound hclean
    refine ⟨h.1, ?_⟩
    show ((m.write_uint p u w).2.get_bytes p w).map (fun bs => leDecode bs)
      = .ok u
    rw [show (m.write_uint p u w).2 =
      (m.mutate_bytes p w (fun _ => leBytes w (u % 2 ^ (8 * w)))).2 from rfl]
    rw [h.2]
    show Except.ok (leDecode (leBytes w (u % 2 ^ (8 * w)))) = .ok u
    rw [leDecode_leBytes, pow256_eq, Nat.mod_eq_of_lt hu,
      Nat.mod_eq_of_lt hu]

/-- C7 witness: the integer round-trips at a concrete input. -/
theorem claim_c7_int_roundtrip_witness :
    (((Memory.new.allocate 8).2.write_int ⟨⟨0⟩, 2⟩ (-5) 1).1 = .ok () ∧
      ((Memory.new.allocate 8).2.write_int ⟨⟨0⟩, 2⟩ (-5) 1).2.read_int
        ⟨⟨0⟩, 2⟩ 1 = .ok (-5)) ∧
    (((Memory.new.allocate 8).2.write_uint ⟨⟨0⟩, 2⟩ 200 1).1 = .ok () ∧
      ((Memory.new.allocate 8).2.write_uint ⟨⟨0⟩, 2⟩ 200 1).2.read_uint
        ⟨⟨0⟩, 2⟩ 1 = .ok 200) :=
  claim_c7_int_roundtrip (Memory.new.allocate 8).2 ⟨⟨0⟩, 2⟩
    { bytes := List.replicate 8 0, relocations := [] } 1 (-5) 200
    (Or.inl rfl) (by decide) (by decide) (by decide) (by decide) (by decide)
    (by decide)

/-- Computation rule for `read_ptr` once the allocation and the edge
check are known. -/
lemma read_ptr_eq (m : Memory) (p : Pointer) (alloc : Allocation)
    (hget : m.get p.alloc_id = .ok alloc)
    (hedge : alloc.check_relocation_edges p.offset
      (p.offset + m.pointer_size) = .ok ()) :
    m.read_ptr p =
      match relocGet alloc.relocations p.offset with
      | some aid => .ok (Pointer.mk aid (leDecode
          (((alloc.bytes.drop p.offset).take m.pointer_size).take 8)))
      | none => .error .ReadBytesAsPointer := by
  simp only [Memory.read_ptr, hget, hedge]

/-- C2: writing a pointer value `v` to a relocation-free, in-bounds,
pointer-sized destination (which a freshly allocated, never-written
allocation provides) succeeds, and `read_ptr` then returns `Ok v`: a
pointer with the same `alloc_id` and the same offset as `v`. -/
theorem claim_c2_ptr_roundtrip (m : Memory) (p v : Pointer)
    (alloc : Allocation)
    (hget : m.get p.alloc_id = .ok alloc)
    (hrel : alloc.relocations = [])
    (hps : m.pointer_size = 8)
    (hbound : p.offset + 8 ≤ alloc.bytes.length)
    (hv : v.offset < 2 ^ 64) :
    (m.write_ptr p v).1 = .ok () ∧ (m.write_ptr p v).2.read_ptr p = .ok v := by
  have hchk : alloc.check_no_relocations p.offset
      (p.offset + m.pointer_size) = .ok () := by
    refine (check_no_relocations_ok_iff _ _ _).mpr
      ⟨by omega, by rw [hps]; exact hbound, ?_⟩
    simp [Allocation.count_overlapping_relocations, hrel]
  rw [write_ptr_ok m p v alloc hget hchk]
  refine ⟨rfl, ?_⟩
  have hslice : ((alloc.bytes.drop p.offset).take m.pointer_size).length =
      m.pointer_size := slice_length _ _ _ (by omega)
  have hdrop8 : ((alloc.bytes.drop p.offset).take m.pointer_size).drop 8 =
      [] := by
    apply List.drop_eq_nil_of_le
    omega
  have hmid : writePtrBytes m alloc p v = alloc.bytes.take p.offset ++
      leBytes 8 (v.offset % 2 ^ 64) ++
      alloc.bytes.drop (p.offset + m.pointer_size) := by
    unfold writePtrBytes
    rw [hdrop8, List.append_nil]
  have hlen : (writePtrBytes m alloc p v).length = alloc.bytes.length := by
    rw [hmid, write_back_length _ _ _ _ (by omega), leBytes_length]
    omega
  have hedge : (⟨writePtrBytes m alloc p v,
      relocInsert alloc.relocations p.offset v.alloc_id⟩ :
        Allocation).check_relocation_edges p.offset
          (p.offset + m.pointer_size) = .ok () := by
    refine (check_relocation_edges_ok_iff _ _ _).mpr
      ⟨?_, ?_, ?_⟩
    · show p.offset ≤ (writePtrBytes m alloc p v).length
      omega
    · show p.offset + m.pointer_size ≤ (writePtrBytes m alloc p v).length
      omega
    · have h1 : (⟨writePtrBytes m alloc p v,
          relocInsert alloc.relocations p.offset v.alloc_id⟩ :
            Allocation).count_overlapping_relocations p.offset p.offset = 0 := by
        refine (count_eq_zero_iff _ _ _).mpr ?_
        intro q hq
        show ¬(p.offset - (8 - 1) ≤ q.1 ∧ q.1 < p.offset)
        simp only [relocInsert, hrel, List.filter_nil] at hq
        rcases List.mem_cons.mp hq with heq | hmem
        · rw [heq]
          omega
        · cases hmem
      have h2 : (⟨writePtrBytes m alloc p v,
          relocInsert alloc.relocations p.offset v.alloc_id⟩ :
            Allocation).count_overlapping_relocations
              (p.offset + m.pointer_size) (p.offset + m.pointer_size) = 0 := by
        refine (count_eq_zero_iff _ _ _).mpr ?_
        intro q hq
        show ¬(p.offset + m.pointer_size - (8 - 1) ≤ q.1 ∧
          q.1 < p.offset + m.pointer_size)
        simp only [relocInsert, hrel, List.filter_nil] at hq
        rcases List.mem_cons.mp hq with heq | hmem
        · rw [heq]
          omega
        · cases hmem
      omega
  have hbig := read_ptr_eq ((m.setAlloc p.alloc_id
      { alloc with bytes := writePtrBytes m alloc p v }).setAlloc p.alloc_id
      ⟨writePtrBytes m alloc p v,
        relocInsert alloc.relocations p.offset v.alloc_id⟩) p _
    (Memory.get_setAlloc_self _ p.alloc_id _) hedge
  rw [hbig]
  show (match relocGet (relocInsert alloc.relocations p.offset v.alloc_id)
      p.offset with
    | some aid => Except.ok (Pointer.mk aid
        (leDecode (((writePtrBytes m alloc p v).drop p.offset).take
          m.pointer_size |>.take 8)))
    | none => Except.error EvalError.ReadBytesAsPointer) = .ok v
  rw [relocGet_insert_self]
  show Except.ok (Pointer.mk v.alloc_id
      (leDecode (((writePtrBytes m alloc p v).drop p.offset).take
        m.pointer_size |>.take 8))) = .ok v
  rw [hps, List.take_take, min_self]
  rw [hmid, drop_take_append _ _ _ _ _ (by rw [List.length_take]; omega)
    (leBytes_length _ _)]
  have hoff : (v.offset % 2 ^ 64) % 256 ^ 8 = v.offset := by
    have h256 : (256 : Nat) ^ 8 = 2 ^ 64 := by norm_num
    rw [h256]
    omega
  rw [leDecode_leBytes, hoff]

/-- C2 witness: the pointer round-trip at a concrete input. -/
theorem claim_c2_ptr_roundtrip_witness :
    ((Memory.new.allocate 16).2.write_ptr ⟨⟨0⟩, 4⟩ ⟨⟨7⟩, 3⟩).1 = .ok () ∧
    ((Memory.new.allocate 16).2.write_ptr ⟨⟨0⟩, 4⟩ ⟨⟨7⟩, 3⟩).2.read_ptr
      ⟨⟨0⟩, 4⟩ = .ok ⟨⟨7⟩, 3⟩ :=
  claim_c2_ptr_roundtrip (Memory.new.allocate 16).2 ⟨⟨0⟩, 4⟩ ⟨⟨7⟩, 3⟩
    { bytes := List.replicate 16 0, relocations := [] } (by decide) rfl rfl
    (by decide) (by decide)

lemma relocGet_eq_none (rs : List (Nat × AllocId)) (k : Nat)
    (h : ∀ q ∈ rs, q.1 ≠ k) : relocGet rs k = none := by
  unfold relocGet
  rw [List.find?_eq_none.mpr ?_]
  · rfl
  · intro q hq
    simp only [beq_iff_eq]
    exact h q hq

/-- C5 counterexample: the claim as frozen says `read_ptr p` fails with
`ReadBytesAsPointer` for every in-bounds `p` carrying no relocation
record at `p.offset`.  Concretely: allocate 16 bytes, `write_ptr` at
offset 0 (recording a relocation at offset 0), and `read_ptr` at offset
3.  Offset 3 carries no relocation record and `3 + 8 ≤ 16` is in bounds,
yet `read_ptr` fails with `ReadPointerAsBytes` (the single-point probe
at the range start hits the relocation straddling it), not
`ReadBytesAsPointer`. -/
theorem claim_c5_counterexample :
    (let m1 := (Memory.new.allocate 16).2
     let p := (Memory.new.allocate 16).1
     let m2 := (m1.write_ptr p p).2
     (m1.write_ptr p p).1 = .ok () ∧
     m2.read_ptr { alloc_id := p.alloc_id, offset := 3 } =
       .error .ReadPointerAsBytes ∧
     (m2.get p.alloc_id).map
       (fun a => (relocGet a.relocations 3, a.bytes.length)) =
       .ok (none, 16) ∧
     EvalError.ReadPointerAsBytes ≠ EvalError.ReadBytesAsPointer) := by
  decide

/-- C5 (amended): for a pointer `p` whose pointer-sized range is in
bounds and such that no relocation record sits at any offset of the
widened interval `[p.offset − (pointer_size − 1), p.offset + pointer_size)`
— in particular none at `p.offset` itself, the situation after
`write_int(p, n, pointer_size)` on a fresh allocation — `read_ptr p`
fails with `ReadBytesAsPointer`, because the pointer-sized bytes were
never recorded as a pointer.  (The claim as frozen, which only excludes
a record at `p.offset` itself, is refuted by `claim_c5_counterexample`;
the widened exclusion zone is what the code requires.) -/
theorem claim_c5_read_bytes_as_pointer (m : Memory) (p : Pointer)
    (alloc : Allocation)
    (hget : m.get p.alloc_id = .ok alloc)
    (hps : m.pointer_size = 8)
    (hbound : p.offset + 8 ≤ alloc.bytes.length)
    (hclean : ∀ q ∈ alloc.relocations,
      q.1 + 7 < p.offset ∨ p.offset + 8 ≤ q.1) :
    m.read_ptr p = .error .ReadBytesAsPointer := by
  have hedge : alloc.check_relocation_edges p.offset
      (p.offset + m.pointer_size) = .ok () := by
    rw [hps]
    refine (check_relocation_edges_ok_iff _ _ _).mpr ⟨by omega, hbound, ?_⟩
    have h1 : alloc.count_overlapping_relocations p.offset p.offset = 0 :=
      (count_eq_zero_iff _ _ _).mpr (fun q hq => by
        have := hclean q hq
        omega)
    have h2 : alloc.count_overlapping_relocations (p.offset + 8)
        (p.offset + 8) = 0 :=
      (count_eq_zero_iff _ _ _).mpr (fun q hq => by
        have := hclean q hq
        omega)
    omega
  rw [read_ptr_eq m p alloc hget hedge]
  rw [relocGet_eq_none alloc.relocations p.offset (fun q hq => by
    have := hclean q hq
    omega)]

/-- C5 witness: reading a pointer from fresh integer bytes at a concrete
input fails with `ReadBytesAsPointer`. -/
theorem claim_c5_read_bytes_as_pointer_witness :
    ((Memory.new.allocate 16).2.write_int ⟨⟨0⟩, 0⟩ 42 8).2.read_ptr
      ⟨⟨0⟩, 0⟩ = .error .ReadBytesAsPointer :=
  claim_c5_read_bytes_as_pointer
    ((Memory.new.allocate 16).2.write_int ⟨⟨0⟩, 0⟩ 42 8).2 ⟨⟨0⟩, 0⟩
    { bytes := leBytes 8 42 ++ List.replicate 8 0, relocations := [] }
    (by decide) rfl (by decide) (by decide)

lemma count_pos (a : Allocation) (s f : Nat) (q : Nat × AllocId)
    (hq : q ∈ a.relocations) (h1 : s - (8 - 1) ≤ q.1) (h2 : q.1 < f) :
    a.count_overlapping_relocations s f ≠ 0 := fun h =>
  absurd ⟨h1, h2⟩ ((count_eq_zero_iff a s f).mp h q hq)

lemma write_ptr_ok_inv (m : Memory) (dest vp : Pointer) (m1 : Memory)
    (hw : m.write_ptr dest vp = (.ok (), m1)) :
    ∃ alloc : Allocation, m.get dest.alloc_id = .ok alloc ∧
      alloc.check_no_relocations dest.offset
        (dest.offset + m.pointer_size) = .ok () ∧
      m1 = (m.setAlloc dest.alloc_id
          { alloc with bytes := writePtrBytes m alloc dest vp }).setAlloc
        dest.alloc_id
        { bytes := writePtrBytes m alloc dest vp,
          relocations := relocInsert alloc.relocations dest.offset
            vp.alloc_id } := by
  cases hget : m.get dest.alloc_id with
  | error e =>
    simp only [Memory.write_ptr, Memory.mutate_bytes, hget] at hw
    simp at hw
  | ok alloc =>
    cases hchk : alloc.check_no_relocations dest.offset
        (dest.offset + m.pointer_size) with
    | error e =>
      simp only [Memory.write_ptr, Memory.mutate_bytes, hget, hchk] at hw
      simp at hw
    | ok u =>
      refine ⟨alloc, rfl, hchk, ?_⟩
      rw [write_ptr_ok m dest vp alloc hget hchk] at hw
      exact (congrArg Prod.snd hw).symm

/-- C4 counterexample: the claim as frozen says `write_bytes(p, data)`
fails with `ReadPointerAsBytes` for every non-empty `data` after a
successful `write_ptr`.  Concretely: allocate 8 bytes, `write_ptr` at
offset 0, then `write_bytes` with 9 bytes — the bounds check runs before
the relocation check, so the call fails with `PointerOutOfBounds`
instead. -/
theorem claim_c4_counterexample :
    (let m1 := (Memory.new.allocate 8).2
     let p := (Memory.new.allocate 8).1
     let m2 := (m1.write_ptr p p).2
     (m1.write_ptr p p).1 = .ok () ∧
     (List.replicate 9 (0 : Nat) ≠ []) ∧
     (m2.write_bytes p (List.replicate 9 0)).1 = .error .PointerOutOfBounds ∧
     EvalError.PointerOutOfBounds ≠ EvalError.ReadPointerAsBytes) := by
  decide

/-- C4 (amended): after a successful `write_ptr(p, v)`, each of
`write_bytes(p, data)` for any non-empty `data` whose range
`[p.offset, p.offset + data.length)` stays within the allocation's
bounds, `read_int(p, w)` for `w ∈ {1,2,4,8}`, and
`get_bytes(p, pointer_size)` fails with `ReadPointerAsBytes`, and the
failing calls leave the memory — in particular the allocation's bytes
and relocations — unchanged.  (The claim as frozen, which allows
arbitrarily long `data`, is refuted by `claim_c4_counterexample`: a
`data` overrunning the allocation fails with `PointerOutOfBounds`
because the bounds check runs first.) -/
theorem claim_c4_type_confusion (m : Memory) (p v : Pointer) (m1 : Memory)
    (hps : m.pointer_size = 8)
    (hw : m.write_ptr p v = (.ok (), m1))
    (data : List Nat) (hd : data ≠ [])
    (alloc1 : Allocation) (hget1 : m1.get p.alloc_id = .ok alloc1)
    (hdata : p.offset + data.length ≤ alloc1.bytes.length)
    (w : Nat) (hwmem : w = 1 ∨ w = 2 ∨ w = 4 ∨ w = 8) :
    m1.write_bytes p data = (.error .ReadPointerAsBytes, m1) ∧
    m1.read_int p w = .error .ReadPointerAsBytes ∧
    m1.get_bytes p m1.pointer_size = .error .ReadPointerAsBytes := by
  obtain ⟨alloc, hget, hchk, hm1⟩ := write_ptr_ok_inv m p v m1 hw
  obtain ⟨hb1, hb2, -⟩ := (check_no_relocations_ok_iff _ _ _).mp hchk
  have hget1' : m1.get p.alloc_id = .ok
      ⟨writePtrBytes m alloc p v,
        relocInsert alloc.relocations p.offset v.alloc_id⟩ := by
    rw [hm1]
    exact Memory.get_setAlloc_self _ _ _
  have halloc1 : alloc1 = ⟨writePtrBytes m alloc p v,
      relocInsert alloc.relocations p.offset v.alloc_id⟩ := by
    rw [hget1'] at hget1
    injection hget1 with h
    exact h.symm
  have hmem0 : (p.offset, v.alloc_id) ∈ alloc1.relocations := by
    rw [halloc1]
    exact List.mem_cons_self _ _
  have hsl : ((alloc.bytes.drop p.offset).take m.pointer_size).length =
      m.pointer_size := slice_length _ _ _ hb2
  have hlen1 : alloc1.bytes.length = alloc.bytes.length := by
    rw [halloc1]
    show (writePtrBytes m alloc p v).length = alloc.bytes.length
    unfold writePtrBytes
    rw [write_back_length _ _ _ _ hb1, List.length_append, leBytes_length,
      List.length_drop, hsl]
    omega
  have hbound8 : p.offset + 8 ≤ alloc1.bytes.length := by
    rw [hlen1]
    omega
  have hdpos : 0 < data.length := List.length_pos.mpr hd
  refine ⟨?_, ?_, ?_⟩
  · show m1.mutate_bytes p data.length (fun _ => data) =
      (.error .ReadPointerAsBytes, m1)
    exact mutate_bytes_err m1 p data.length _ alloc1 _ hget1
      (check_no_relocations_err_reloc _ _ _ (by omega) hdata
        (count_pos alloc1 p.offset (p.offset + data.length) _ hmem0
          (by omega) (by omega)))
  · show (m1.get_bytes p w).map (fun bs => leDecodeSigned bs) =
      .error .ReadPointerAsBytes
    rw [get_bytes_err m1 p w alloc1 _ hget1
      (check_no_relocations_err_reloc _ _ _ (by omega) (by omega)
        (count_pos alloc1 p.offset (p.offset + w) _ hmem0
          (by omega) (by omega)))]
    rfl
  · have hps1 : m1.pointer_size = 8 := by
      rw [hm1]
      exact hps
    rw [hps1]
    exact get_bytes_err m1 p 8 alloc1 _ hget1
      (check_no_relocations_err_reloc _ _ _ (by omega) (by omega)
        (count_pos alloc1 p.offset (p.offset + 8) _ hmem0
          (by omega) (by omega)))

/-- C4 witness: the type-confusion guard at a concrete input. -/
theorem claim_c4_type_confusion_witness :
    ((Memory.new.allocate 8).2.write_ptr ⟨⟨0⟩, 0⟩ ⟨⟨0⟩, 0⟩).2.write_bytes
      ⟨⟨0⟩, 0⟩ [5] = (.error .ReadPointerAsBytes,
        ((Memory.new.allocate 8).2.write_ptr ⟨⟨0⟩, 0⟩ ⟨⟨0⟩, 0⟩).2) ∧
    ((Memory.new.allocate 8).2.write_ptr ⟨⟨0⟩, 0⟩ ⟨⟨0⟩, 0⟩).2.read_int
      ⟨⟨0⟩, 0⟩ 1 = .error .ReadPointerAsBytes ∧
    ((Memory.new.allocate 8).2.write_ptr ⟨⟨0⟩, 0⟩ ⟨⟨0⟩, 0⟩).2.get_bytes
      ⟨⟨0⟩, 0⟩ (((Memory.new.allocate 8).2.write_ptr ⟨⟨0⟩, 0⟩
        ⟨⟨0⟩, 0⟩).2.pointer_size) = .error .ReadPointerAsBytes :=
  claim_c4_type_confusion (Memory.new.allocate 8).2 ⟨⟨0⟩, 0⟩ ⟨⟨0⟩, 0⟩
    ((Memory.new.allocate 8).2.write_ptr ⟨⟨0⟩, 0⟩ ⟨⟨0⟩, 0⟩).2 rfl
    (by decide) [5] (by decide)
    ⟨List.replicate 8 0, [(0, ⟨0⟩)]⟩ (by decide) (by decide) 1 (Or.inl rfl)

/-- C9: the relocation-table invariant — every key of every allocation's
relocation map lies strictly within `[0, bytes.length)` — is preserved
by every state-changing public `Memory` operation: `allocate`, `copy`,
`write_bytes`, `write_ptr`, `write_primval`, `write_bool`, `write_int`,
`write_uint`, `write_isize` and `write_usize`.  The read operations are
embedded as `Memory → ... → Except EvalError α` (mirroring `&self` in
the source): they return no modified memory, so they preserve every
state invariant trivially. -/
theorem claim_c9_invariant (m : Memory) (hm : m.Inv) :
    (∀ size, (m.allocate size).2.Inv) ∧
    (∀ src dest size, (m.copy src dest size).2.Inv) ∧
    (∀ p data, (m.write_bytes p data).2.Inv) ∧
    (∀ p v, (m.write_ptr p v).2.Inv) ∧
    (∀ p val, (m.write_primval p val).2.Inv) ∧
    (∀ p b, (m.write_bool p b).2.Inv) ∧
    (∀ p n w, (m.write_int p n w).2.Inv) ∧
    (∀ p u w, (m.write_uint p u w).2.Inv) ∧
    (∀ p n, (m.write_isize p n).2.Inv) ∧
    (∀ p u, (m.write_usize p u).2.Inv) := by
  refine ⟨Memory.Inv.allocate m hm, Memory.Inv.copy m hm,
    Memory.Inv.write_bytes m hm, Memory.Inv.write_ptr m hm, ?_,
    Memory.Inv.write_bool m hm, Memory.Inv.write_int m hm,
    Memory.Inv.write_uint m hm,
    fun p n => Memory.Inv.write_int m hm p n m.pointer_size,
    fun p u => Memory.Inv.write_uint m hm p u m.pointer_size⟩
  intro p val
  cases val with
  | Bool b => exact Memory.Inv.write_bool m hm p b
  | I8 n => exact Memory.Inv.write_int m hm p n 1
  | I16 n => exact Memory.Inv.write_int m hm p n 2
  | I32 n => exact Memory.Inv.write_int m hm p n 4
  | I64 n => exact Memory.Inv.write_int m hm p n 8
  | U8 n => exact Memory.Inv.write_uint m hm p n 1
  | U16 n => exact Memory.Inv.write_uint m hm p n 2
  | U32 n => exact Memory.Inv.write_uint m hm p n 4
  | U64 n => exact Memory.Inv.write_uint m hm p n 8
  | IntegerPtr n => exact Memory.Inv.write_uint m hm p n 8
  | AbstractPtr q => exact hm

/-- C9 witness: the invariant preservation at a concrete memory. -/
theorem claim_c9_invariant_witness :
    (∀ size, ((Memory.new.allocate 4).2.allocate size).2.Inv) ∧
    (∀ src dest size, ((Memory.new.allocate 4).2.copy src dest size).2.Inv) ∧
    (∀ p data, ((Memory.new.allocate 4).2.write_bytes p data).2.Inv) ∧
    (∀ p v, ((Memory.new.allocate 4).2.write_ptr p v).2.Inv) ∧
    (∀ p val, ((Memory.new.allocate 4).2.write_primval p val).2.Inv) ∧
    (∀ p b, ((Memory.new.allocate 4).2.write_bool p b).2.Inv) ∧
    (∀ p n w, ((Memory.new.allocate 4).2.write_int p n w).2.Inv) ∧
    (∀ p u w, ((Memory.new.allocate 4).2.write_uint p u w).2.Inv) ∧
    (∀ p n, ((Memory.new.allocate 4).2.write_isize p n).2.Inv) ∧
    (∀ p u, ((Memory.new.allocate 4).2.write_usize p u).2.Inv) :=
  claim_c9_invariant (Memory.new.allocate 4).2 (by decide)

lemma copy_ok (m : Memory) (src dest : Pointer) (size : Nat)
    (sa da : Allocation)
    (hgs : m.get src.alloc_id = .ok sa)
    (hce : sa.check_relocation_edges src.offset (src.offset + size) = .ok ())
    (hgd : m.get dest.alloc_id = .ok da)
    (hcd : da.check_no_relocations dest.offset (dest.offset + size) = .ok ()) :
    m.copy src dest size = (.ok (), m.setAlloc dest.alloc_id
      { bytes := da.bytes.take dest.offset ++
          (sa.bytes.drop src.offset).take size ++
          da.bytes.drop (dest.offset + size),
        relocations := relocExtend da.relocations
          ((sa.relocations.filter (fun q =>
            decide (src.offset ≤ q.1 ∧ q.1 < src.offset + size))).map
            (fun q => (q.1 + dest.offset - src.offset, q.2))) }) := by
  simp only [Memory.copy, hgs, hce, hgd, hcd]

lemma copy_ok_inv (m : Memory) (src dest : Pointer) (size : Nat)
    (m1 : Memory) (hw : m.copy src dest size = (.ok (), m1)) :
    ∃ sa da, m.get src.alloc_id = .ok sa ∧
      sa.check_relocation_edges src.offset (src.offset + size) = .ok () ∧
      m.get dest.alloc_id = .ok da ∧
      da.check_no_relocations dest.offset (dest.offset + size) = .ok () ∧
      m1 = m.setAlloc dest.alloc_id
        { bytes := da.bytes.take dest.offset ++
            (sa.bytes.drop src.offset).take size ++
            da.bytes.drop (dest.offset + size),
          relocations := relocExtend da.relocations
            ((sa.relocations.filter (fun q =>
              decide (src.offset ≤ q.1 ∧ q.1 < src.offset + size))).map
              (fun q => (q.1 + dest.offset - src.offset, q.2))) } := by
  cases hgs : m.get src.alloc_id with
  | error e =>
    simp only [Memory.copy, hgs] at hw
    simp at hw
  | ok sa =>
    cases hce : sa.check_relocation_edges src.offset (src.offset + size) with
    | error e =>
      simp only [Memory.copy, hgs, hce] at hw
      simp at hw
    | ok u =>
      cases hgd : m.get dest.alloc_id with
      | error e =>
        simp only [Memory.copy, hgs, hce, hgd] at hw
        simp at hw
      | ok da =>
        cases hcd : da.check_no_relocations dest.offset
            (dest.offset + size) with
        | error e =>
          simp only [Memory.copy, hgs, hce, hgd, hcd] at hw
          simp at hw
        | ok u2 =>
          refine ⟨sa, da, rfl, hce, rfl, hcd, ?_⟩
          rw [copy_ok m src dest size sa da hgs hce hgd hcd] at hw
          exact (congrArg Prod.snd hw).symm

/-- C6: a successful `copy` within one allocation whose source and
destination ranges overlap leaves the byte contents exactly as a
logical "snapshot the whole source range, then write the snapshot into
the destination range" would (memmove semantics, no self-clobbering):
the buffer equals the snapshot-write, position `dest.offset + j` holds
the byte originally at `src.offset + j`, and every position outside the
destination range is unchanged. -/
theorem claim_c6_copy_overlap (m : Memory) (src dest : Pointer) (size : Nat)
    (a : Allocation) (m1 : Memory)
    (hsame : src.alloc_id = dest.alloc_id)
    (_hover : src.offset < dest.offset + size ∧
      dest.offset < src.offset + size)
    (hget : m.get src.alloc_id = .ok a)
    (hcopy : m.copy src dest size = (.ok (), m1)) :
    ∃ na, m1.get dest.alloc_id = .ok na ∧
      na.bytes = a.bytes.take dest.offset ++
        (a.bytes.drop src.offset).take size ++
        a.bytes.drop (dest.offset + size) ∧
      (∀ j, j < size →
        na.bytes[dest.offset + j]? = a.bytes[src.offset + j]?) ∧
      (∀ i, i < dest.offset ∨ dest.offset + size ≤ i →
        na.bytes[i]? = a.bytes[i]?) := by
  obtain ⟨sa, da, hgs, hce, hgd, hcd, hm1⟩ :=
    copy_ok_inv m src dest size m1 hcopy
  have hsa : sa = a := by
    rw [hget] at hgs
    injection hgs with h
    exact h.symm
  have hda : da = a := by
    rw [← hsame, hget] at hgd
    injection hgd with h
    exact h.symm
  rw [hsa] at hce
  rw [hda] at hcd
  rw [hsa, hda] at hm1
  obtain ⟨hsb1, hsb2, -⟩ :=
    (check_relocation_edges_ok_iff _ _ _).mp hce
  obtain ⟨hdb1, hdb2, -⟩ := (check_no_relocations_ok_iff _ _ _).mp hcd
  refine ⟨_, by rw [hm1]; exact Memory.get_setAlloc_self _ _ _, rfl, ?_, ?_⟩
  · intro j hj
    show (a.bytes.take dest.offset ++ (a.bytes.drop src.offset).take size ++
      a.bytes.drop (dest.offset + size))[dest.offset + j]? =
      a.bytes[src.offset + j]?
    rw [get_append_middle _ _ _ _ _ (by rw [List.length_take]; omega)
      (by rw [slice_length _ _ _ hsb2]; exact hj)]
    exact slice_get a.bytes src.offset size j hj
  · intro i hi
    show (a.bytes.take dest.offset ++ (a.bytes.drop src.offset).take size ++
      a.bytes.drop (dest.offset + size))[i]? = a.bytes[i]?
    rw [get_append_outside _ _ _ _ _ _ (by rw [List.length_take]; omega)
      (slice_length _ _ _ hsb2) hi]
    split
    · rw [List.getElem?_take, if_pos (by assumption)]
    · rw [List.getElem?_drop]
      congr 1
      omega

/-- C6 witness: an overlapping same-allocation copy at a concrete
input behaves like snapshot-then-write. -/
theorem claim_c6_copy_overlap_witness :
    ∃ na, (((Memory.new.allocate 8).2.write_bytes ⟨⟨0⟩, 0⟩
        [1, 2, 3, 4, 5, 6, 7, 8]).2.copy ⟨⟨0⟩, 0⟩ ⟨⟨0⟩, 2⟩ 4).2.get
        ⟨0⟩ = .ok na ∧
      na.bytes = ([1, 2, 3, 4, 5, 6, 7, 8] : List Nat).take 2 ++
        (([1, 2, 3, 4, 5, 6, 7, 8] : List Nat).drop 0).take 4 ++
        ([1, 2, 3, 4, 5, 6, 7, 8] : List Nat).drop 6 ∧
      (∀ j, j < 4 → na.bytes[2 + j]? =
        ([1, 2, 3, 4, 5, 6, 7, 8] : List Nat)[0 + j]?) ∧
      (∀ i, i < 2 ∨ 2 + 4 ≤ i → na.bytes[i]? =
        ([1, 2, 3, 4, 5, 6, 7, 8] : List Nat)[i]?) :=
  claim_c6_copy_overlap
    ((Memory.new.allocate 8).2.write_bytes ⟨⟨0⟩, 0⟩ [1, 2, 3, 4, 5, 6, 7, 8]).2
    ⟨⟨0⟩, 0⟩ ⟨⟨0⟩, 2⟩ 4 ⟨[1, 2, 3, 4, 5, 6, 7, 8], []⟩
    (((Memory.new.allocate 8).2.write_bytes ⟨⟨0⟩, 0⟩
      [1, 2, 3, 4, 5, 6, 7, 8]).2.copy ⟨⟨0⟩, 0⟩ ⟨⟨0⟩, 2⟩ 4).2
    rfl (by decide) (by decide) (by decide)

lemma relocGet_some_mem (rs : List (Nat × AllocId)) (k : Nat) (v : AllocId)
    (h : relocGet rs k = some v) : (k, v) ∈ rs := by
  unfold relocGet at h
  cases hf : rs.find? (fun q => q.1 == k) with
  | none =>
    rw [hf] at h
    cases h
  | some q =>
    rw [hf] at h
    simp only [Option.map_some'] at h
    have hq := List.find?_some hf
    have hmem := List.mem_of_find?_eq_some hf
    simp only [beq_iff_eq] at hq
    injection h with h2
    have hqe : q = (k, v) := Prod.ext hq h2
    rwa [hqe] at hmem

lemma copy_err_src (m : Memory) (src dest : Pointer) (size : Nat)
    (sa : Allocation) (e : EvalError)
    (hgs : m.get src.alloc_id = .ok sa)
    (hce : sa.check_relocation_edges src.offset (src.offset + size) =
      .error e) :
    m.copy src dest size = (.error e, m) := by
  simp only [Memory.copy, hgs, hce]

lemma copy_err_dest (m : Memory) (src dest : Pointer) (size : Nat)
    (sa da : Allocation) (e : EvalError)
    (hgs : m.get src.alloc_id = .ok sa)
    (hce : sa.check_relocation_edges src.offset (src.offset + size) = .ok ())
    (hgd : m.get dest.alloc_id = .ok da)
    (hcd : da.check_no_relocations dest.offset (dest.offset + size) =
      .error e) :
    m.copy src dest size = (.error e, m) := by
  simp only [Memory.copy, hgs, hce, hgd, hcd]

/-- C1 counterexample: the claim as frozen says `copy` fails with
`ReadPointerAsBytes` only when a relocation overlaps a single-point
probe at the start or at the end of the copied range.  Concretely:
allocation 0 holds 8 fresh bytes, allocation 1 holds 16 bytes with a
pointer written at offset 0, and `copy` is called from allocation 0 to
allocation 1 over `[0, 8)`.  No relocation overlaps any of the four
single-point probes (at offsets 0 and 8 of either allocation: all four
widened probe counts are 0), and the destination's relocation at offset
0 spans `[0, 8)`, wholly inside the copied range — yet the copy fails
with `ReadPointerAsBytes`, because `get_bytes_mut` subjects the whole
destination range to the stricter `check_no_relocations`. -/
theorem claim_c1_counterexample :
    (let m1 := (Memory.new.allocate 8).2
     let p1 := (Memory.new.allocate 8).1
     let m2 := (m1.allocate 16).2
     let p2 := (m1.allocate 16).1
     let m3 := (m2.write_ptr p2 p1).2
     (m3.copy p1 p2 8).1 = .error .ReadPointerAsBytes ∧
     (m3.get p1.alloc_id).map (fun a =>
        (a.count_overlapping_relocations p1.offset p1.offset,
         a.count_overlapping_relocations (p1.offset + 8) (p1.offset + 8))) =
       .ok (0, 0) ∧
     (m3.get p2.alloc_id).map (fun a =>
        (a.count_overlapping_relocations p2.offset p2.offset,
         a.count_overlapping_relocations (p2.offset + 8) (p2.offset + 8),
         relocGet a.relocations 0)) = .ok (0, 0, some ⟨0⟩)) := by
  decide

/-- C1 (amended): for existing allocations and in-bounds ranges,
`copy(src, dest, size)` fails with `ReadPointerAsBytes` exactly when a
relocation overlaps a single-point probe at the start or at the end of
the source range, or when some relocation overlaps the widened
destination range `[dest.offset − (pointer_size − 1),
dest.offset + size)` (the frozen claim omitted the destination-side
condition; `claim_c1_counterexample` refutes it).  On success, every
relocation whose offset `k` lies in `[src.offset, src.offset + size)` of
the source allocation is found in the destination allocation's
relocation table at `k + dest.offset − src.offset` with the same target,
and the copied byte values are preserved. -/
theorem claim_c1_copy_spec (m : Memory) (src dest : Pointer) (size : Nat)
    (sa da : Allocation)
    (hgs : m.get src.alloc_id = .ok sa)
    (hgd : m.get dest.alloc_id = .ok da)
    (hsb : src.offset + size ≤ sa.bytes.length)
    (hdb : dest.offset + size ≤ da.bytes.length)
    (hnd : (sa.relocations.map Prod.fst).Nodup) :
    ((m.copy src dest size).1 = .error .ReadPointerAsBytes ↔
      (sa.count_overlapping_relocations src.offset src.offset +
        sa.count_overlapping_relocations (src.offset + size)
          (src.offset + size) ≠ 0 ∨
       da.count_overlapping_relocations dest.offset
         (dest.offset + size) ≠ 0)) ∧
    (∀ m1, m.copy src dest size = (.ok (), m1) →
      ∃ na, m1.get dest.alloc_id = .ok na ∧
        (∀ k v2, src.offset ≤ k → k < src.offset + size →
          relocGet sa.relocations k = some v2 →
          relocGet na.relocations (k + dest.offset - src.offset) =
            some v2) ∧
        (∀ j, j < size →
          na.bytes[dest.offset + j]? = sa.bytes[src.offset + j]?)) := by
  constructor
  · by_cases h1 : sa.count_overlapping_relocations src.offset src.offset +
        sa.count_overlapping_relocations (src.offset + size)
          (src.offset + size) = 0
    · by_cases h2 : da.count_overlapping_relocations dest.offset
          (dest.offset + size) = 0
      · rw [copy_ok m src dest size sa da hgs
          ((check_relocation_edges_ok_iff _ _ _).mpr ⟨by omega, hsb, h1⟩) hgd
          ((check_no_relocations_ok_iff _ _ _).mpr ⟨by omega, hdb, h2⟩)]
        constructor
        · intro h
          cases h
        · intro h
          rcases h with h | h
          · exact absurd h1 h
          · exact absurd h2 h
      · rw [copy_err_dest m src dest size sa da _ hgs
          ((check_relocation_edges_ok_iff _ _ _).mpr ⟨by omega, hsb, h1⟩) hgd
          (check_no_relocations_err_reloc _ _ _ (by omega) hdb h2)]
        simp only [true_iff]
        exact Or.inr h2
    · rw [copy_err_src m src dest size sa _ hgs
        (check_relocation_edges_err_reloc _ _ _ (by omega) hsb h1)]
      simp only [true_iff]
      exact Or.inl h1
  · intro m1 hw
    obtain ⟨sa2, da2, hgs2, hce2, hgd2, hcd2, hm1⟩ :=
      copy_ok_inv m src dest size m1 hw
    have hsa2 : sa2 = sa := by
      rw [hgs] at hgs2
      injection hgs2 with h
      exact h.symm
    have hda2 : da2 = da := by
      rw [hgd] at hgd2
      injection hgd2 with h
      exact h.symm
    rw [hsa2] at hce2
    rw [hda2] at hcd2
    rw [hsa2, hda2] at hm1
    obtain ⟨hsb1, hsb2, -⟩ :=
      (check_relocation_edges_ok_iff _ _ _).mp hce2
    obtain ⟨hdb1, hdb2, -⟩ := (check_no_relocations_ok_iff _ _ _).mp hcd2
    refine ⟨_, by rw [hm1]; exact Memory.get_setAlloc_self _ _ _, ?_, ?_⟩
    · intro k v2 hk1 hk2 hsome
      show relocGet (relocExtend da.relocations
        ((sa.relocations.filter (fun q =>
          decide (src.offset ≤ q.1 ∧ q.1 < src.offset + size))).map
          (fun q => (q.1 + dest.offset - src.offset, q.2))))
        (k + dest.offset - src.offset) = some v2
      apply relocGet_extend_mem
      · have hfil : ((sa.relocations.filter (fun q =>
            decide (src.offset ≤ q.1 ∧ q.1 < src.offset + size))).map
            Prod.fst).Nodup :=
          List.Nodup.sublist
            (List.Sublist.map Prod.fst (List.filter_sublist _)) hnd
        rw [List.map_map]
        have heq : ((sa.relocations.filter (fun q =>
            decide (src.offset ≤ q.1 ∧ q.1 < src.offset + size))).map
            (Prod.fst ∘ fun q => (q.1 + dest.offset - src.offset, q.2))) =
          ((sa.relocations.filter (fun q =>
            decide (src.offset ≤ q.1 ∧ q.1 < src.offset + size))).map
            Prod.fst).map (fun k2 => k2 + dest.offset - src.offset) := by
          rw [List.map_map]
          rfl
        rw [heq]
        apply List.Nodup.map_on ?_ hfil
        intro x hx y hy hxy
        have hxmem := List.mem_map.mp hx
        have hymem := List.mem_map.mp hy
        obtain ⟨qx, hqx, hqxe⟩ := hxmem
        obtain ⟨qy, hqy, hqye⟩ := hymem
        have hqxp := (List.mem_filter.mp hqx).2
        have hqyp := (List.mem_filter.mp hqy).2
        simp only [decide_eq_true_eq] at hqxp hqyp
        omega
      · have hmem : (k, v2) ∈ sa.relocations := relocGet_some_mem _ _ _ hsome
        have hmemf : (k, v2) ∈ sa.relocations.filter (fun q =>
            decide (src.offset ≤ q.1 ∧ q.1 < src.offset + size)) :=
          List.mem_filter.mpr ⟨hmem, by simp only [decide_eq_true_eq]; omega⟩
        exact List.mem_map.mpr ⟨(k, v2), hmemf, rfl⟩
    · intro j hj
      show (da.bytes.take dest.offset ++
        (sa.bytes.drop src.offset).take size ++
        da.bytes.drop (dest.offset + size))[dest.offset + j]? =
        sa.bytes[src.offset + j]?
      rw [get_append_middle _ _ _ _ _ (by rw [List.length_take]; omega)
        (by rw [slice_length _ _ _ hsb2]; exact hj)]
      exact slice_get sa.bytes src.offset size j hj

/-- C1 witness: the copy characterization at a concrete input whose
source range wholly contains a relocation (at offset 4 of a 16-byte
source, copied in full into a fresh 16-byte destination). -/
theorem claim_c1_copy_spec_witness :
    (((((Memory.new.allocate 16).2.allocate 16).2.write_ptr ⟨⟨0⟩, 4⟩
        ⟨⟨5⟩, 7⟩).2.copy ⟨⟨0⟩, 0⟩ ⟨⟨1⟩, 0⟩ 16).1 =
          .error .ReadPointerAsBytes ↔
      ((⟨[0, 0, 0, 0, 7, 0, 0, 0, 0, 0, 0, 0, 0, 0, 0, 0],
          [(4, ⟨5⟩)]⟩ : Allocation).count_overlapping_relocations 0 0 +
        (⟨[0, 0, 0, 0, 7, 0, 0, 0, 0, 0, 0, 0, 0, 0, 0, 0],
          [(4, ⟨5⟩)]⟩ : Allocation).count_overlapping_relocations
            (0 + 16) (0 + 16) ≠ 0 ∨
       (⟨List.replicate 16 0, []⟩ :
          Allocation).count_overlapping_relocations 0 (0 + 16) ≠ 0)) ∧
    (∀ m1, (((Memory.new.allocate 16).2.allocate 16).2.write_ptr ⟨⟨0⟩, 4⟩
        ⟨⟨5⟩, 7⟩).2.copy ⟨⟨0⟩, 0⟩ ⟨⟨1⟩, 0⟩ 16 = (.ok (), m1) →
      ∃ na, m1.get ⟨1⟩ = .ok na ∧
        (∀ k v2, 0 ≤ k → k < 0 + 16 →
          relocGet ([(4, ⟨5⟩)] : List (Nat × AllocId)) k = some v2 →
          relocGet na.relocations (k + 0 - 0) = some v2) ∧
        (∀ j, j < 16 → na.bytes[0 + j]? =
          ([0, 0, 0, 0, 7, 0, 0, 0, 0, 0, 0, 0, 0, 0, 0, 0] :
            List Nat)[0 + j]?)) :=
  claim_c1_copy_spec
    ((((Memory.new.allocate 16).2.allocate 16).2.write_ptr ⟨⟨0⟩, 4⟩
      ⟨⟨5⟩, 7⟩).2) ⟨⟨0⟩, 0⟩ ⟨⟨1⟩, 0⟩ 16
    ⟨[0, 0, 0, 0, 7, 0, 0, 0, 0, 0, 0, 0, 0, 0, 0, 0], [(4, ⟨5⟩)]⟩
    ⟨List.replicate 16 0, []⟩
    (by decide) (by decide) (by decide) (by decide) (by decide)

end Miri
